import Mathlib

/-! apiGolang: the in-memory task service of `index.go`

A shallow embedding of `src/index.go` and the properties of its store and handlers.

Modelling conventions.

* The package-level variables `tasks` and `nextID` are the fields of `Store`; every handler is a
  function from the store before the request to the store after it and the response written.
  Each handler touches the store only between `taskMux.Lock()` and `taskMux.Unlock()`, so one
  handler call is one atomic step on the store and a history of the server is a list of requests.
* `http.ResponseWriter` is the record `ResponseWriter`: header map, status code (absent until
  `WriteHeader` or the first `Write`) and the chunks written to the body, in order.
* `encoding/json` is not modelled byte by byte: the request carries the outcome of
  `Decode(&newTask)` (`none` for a decoding error), and what `Encode` writes is a body chunk
  holding the encoded value.
* Go's `int` is `Int`.  The range of `int` is modelled where a client can reach it: `Atoi` rejects
  digit strings outside the 64-bit range.  The only arithmetic of the program is `nextID++`, from
  1, once per successful create; it is exact addition as long as the counter is below `maxInt`,
  and Go wraps it to the least `int` at `maxInt`.  `nextID_le_length` bounds the counter by the
  number of requests served plus one, so the counter stays below `maxInt` in any history from the
  initial store shorter than `2^63 - 2` requests.  A statement about one request on an arbitrary
  store carries the bound `nextID < maxInt` where it speaks of the new counter.
* `serve` is the dispatch of a request that the mux hands to a handler (or answers itself with
  404).  The mux answers a request whose escaped path is not clean (`//`, `.` or `..` elements)
  with a redirect before any handler runs; such a request touches neither the store nor the
  handlers.  Statements about what a handler does with a segment that is not a number are
  therefore made on `handleTaskByID` itself.
-/

namespace ApiGolang

/-! ## Data model -/

/-- Task is the Go struct `Task` (`index.go`, lines 13-17). -/
structure Task where
  ID : Int
  Title : String
  Done : Bool
deriving DecidableEq, Repr

/-- Store holds the package-level variables `tasks` and `nextID` (`index.go`, lines 19-23). -/
structure Store where
  tasks : List Task
  nextID : Int
deriving DecidableEq, Repr

/-- Initial values of the package-level variables: `tasks = []Task{}`, `nextID = 1`. -/
def Store.init : Store := { tasks := [], nextID := 1 }

/-- Request is the part of `*http.Request` the handlers read: `r.Method`, `r.URL.Path` (as the
mux hands it to the handler) and the outcome of `json.NewDecoder(r.Body).Decode(&newTask)`,
`some t` for a body that decodes to the task `t` and `none` for a decoding error. -/
structure Request where
  Method : String
  Path : String
  Body : Option Task
deriving DecidableEq, Repr

/-- Chunk is one write to the response body: a text line, or the output of
`json.NewEncoder(w).Encode` on a task or on the task slice. -/
inductive Chunk where
  | text (s : String)
  | task (t : Task)
  | tasks (ts : List Task)
deriving DecidableEq, Repr

/-- ResponseWriter is the state of an `http.ResponseWriter`. -/
structure ResponseWriter where
  header : List (String × String)
  code : Option Nat
  body : List Chunk
deriving DecidableEq, Repr

/-- The writer a handler receives: nothing set, nothing written. -/
def ResponseWriter.fresh : ResponseWriter := { header := [], code := none, body := [] }

/-- Go `w.Header().Set(k, v)`: replaces the value stored under `k`. -/
def ResponseWriter.Set (w : ResponseWriter) (k v : String) : ResponseWriter :=
  { w with header := (k, v) :: w.header.filter (fun e => e.1 ≠ k) }

/-- Go `w.WriteHeader(c)`: fixes the status code; a later call does not change it. -/
def ResponseWriter.WriteHeader (w : ResponseWriter) (c : Nat) : ResponseWriter :=
  match w.code with
  | some _ => w
  | none => { w with code := some c }

/-- Go `w.Write`: the first write without a status code fixes it to 200. -/
def ResponseWriter.Write (w : ResponseWriter) (c : Chunk) : ResponseWriter :=
  let w1 := w.WriteHeader 200
  { w1 with body := w1.body ++ [c] }

/-- Status code of the response sent: 200 when the handler never fixed one. -/
def ResponseWriter.status (w : ResponseWriter) : Nat := w.code.getD 200

/-! ## Standard library functions the handlers call -/

/-- Go `http.Error(w, msg, code)`: sets the plain-text headers, writes the status code and then
the message followed by a newline.  (It also drops a `Content-Length` header; no handler of this
program sets one.) -/
def httpError (w : ResponseWriter) (msg : String) (c : Nat) : ResponseWriter :=
  (((w.Set "Content-Type" "text/plain; charset=utf-8").Set
    "X-Content-Type-Options" "nosniff").WriteHeader c).Write (Chunk.text (msg ++ "\n"))

/-- Go `http.NotFound(w, r)`, which is `http.Error(w, "404 page not found", 404)`. -/
def httpNotFound (w : ResponseWriter) : ResponseWriter :=
  httpError w "404 page not found" 404

/-- Go `strings.TrimPrefix(s, pre)`: `s` without the leading `pre`, or `s` itself when it does
not start with `pre`. -/
def TrimPrefix (s pre : String) : String :=
  if pre.data.isPrefixOf s.data then String.mk (s.data.drop pre.data.length) else s

/-- Number of bits of Go's `int` (`strconv.IntSize` on a 64-bit platform). -/
def intSize : Nat := 64

/-- Largest value of Go's `int` (`math.MaxInt`); `nextID++` is exact addition below it. -/
def maxInt : Int := 2 ^ (intSize - 1) - 1

/-- Value of a string of decimal digits, most significant first. -/
def digitsValue (ds : List Char) : Nat :=
  ds.foldl (fun acc ch => acc * 10 + (ch.toNat - 48)) 0

/-- Go `strconv.Atoi`: an optional sign followed by at least one decimal digit and nothing else,
with a value in the range of `int`; `none` stands for a non-nil error. -/
def Atoi (s : String) : Option Int :=
  let cs := s.data
  let neg : Bool := cs.head? = some '-'
  let ds := if cs.head? = some '-' ∨ cs.head? = some '+' then cs.tail else cs
  if ds.isEmpty then none
  else if ds.all Char.isDigit then
    let v : Int := if neg then -(digitsValue ds : Int) else (digitsValue ds : Int)
    if -(2 : Int) ^ (intSize - 1) ≤ v ∧ v < (2 : Int) ^ (intSize - 1) then some v else none
  else none

/-! ## Handlers (`index.go`) -/

/-- Go `listTasks` (lines 84-90): encodes the whole slice; the store is not changed. -/
def listTasks (w : ResponseWriter) (s : Store) : Store × ResponseWriter :=
  (s, (w.Set "Content-Type" "application/json").Write (Chunk.tasks s.tasks))

/-- Go `createTask` (lines 99-115). -/
def createTask (w : ResponseWriter) (r : Request) (s : Store) : Store × ResponseWriter :=
  match r.Body with
  | none => (s, httpError w "Dados inválidos" 400)
  | some decoded =>
    let newTask : Task := { decoded with ID := s.nextID }
    let s1 : Store := { tasks := s.tasks ++ [newTask], nextID := s.nextID + 1 }
    (s1, (((w.Set "Content-Type" "application/json").WriteHeader 201).Write (Chunk.task newTask)))

/-- The loop of `getTask` (lines 126-132): the first task whose `ID` is `id`. -/
def getTaskLoop (id : Int) : List Task → Option Task
  | [] => none
  | t :: rest => if t.ID = id then some t else getTaskLoop id rest

/-- Go `getTask` (lines 122-135). -/
def getTask (w : ResponseWriter) (id : Int) (s : Store) : Store × ResponseWriter :=
  match getTaskLoop id s.tasks with
  | some t => (s, (w.Set "Content-Type" "application/json").Write (Chunk.task t))
  | none => (s, httpNotFound w)

/-- The loop of `deleteTask` (lines 145-151) over the slice `ts`, at index `i` with `rest` still
to visit: at the first task whose `ID` is `id` the new slice is
`append(tasks[:i], tasks[i+1:]...)`; `none` when the loop ends without a match. -/
def deleteTaskLoop (id : Int) (ts : List Task) : List Task → Nat → Option (List Task)
  | [], _ => none
  | t :: rest, i =>
    if t.ID = id then some (ts.take i ++ ts.drop (i + 1))
    else deleteTaskLoop id ts rest (i + 1)

/-- Go `deleteTask` (lines 141-154). -/
def deleteTask (w : ResponseWriter) (id : Int) (s : Store) : Store × ResponseWriter :=
  match deleteTaskLoop id s.tasks s.tasks 0 with
  | some ts => ({ s with tasks := ts }, w.WriteHeader 204)
  | none => (s, httpNotFound w)

/-- Go `handleTasks` (lines 38-47). -/
def handleTasks (w : ResponseWriter) (r : Request) (s : Store) : Store × ResponseWriter :=
  if r.Method = "GET" then listTasks w s
  else if r.Method = "POST" then createTask w r s
  else (s, httpError w "Método não permitido" 405)

/-- Go `handleTaskByID` (lines 58-74). -/
def handleTaskByID (w : ResponseWriter) (r : Request) (s : Store) : Store × ResponseWriter :=
  match Atoi (TrimPrefix r.Path "/tasks/") with
  | none => (s, httpError w "ID inválido" 400)
  | some id =>
    if r.Method = "GET" then getTask w id s
    else if r.Method = "DELETE" then deleteTask w id s
    else (s, httpError w "Método não permitido" 405)

/-- The routes registered in `main` (lines 30-31) on the default mux, for a request the mux
dispatches: the pattern `/tasks` matches exactly that path, the pattern `/tasks/` every path
that starts with it, and a path matching neither is answered by the mux with `http.NotFound`.
(A request whose escaped path is not clean is redirected by the mux and reaches no handler.) -/
def serve (r : Request) (s : Store) : Store × ResponseWriter :=
  if r.Path = "/tasks" then handleTasks ResponseWriter.fresh r s
  else if "/tasks/".data.isPrefixOf r.Path.data then handleTaskByID ResponseWriter.fresh r s
  else (s, httpNotFound ResponseWriter.fresh)

/-! ## Histories -/

/-- Store after serving the requests `rs` one after the other from the store `s`. -/
def exec (s : Store) : List Request → Store
  | [] => s
  | r :: rs => exec (serve r s).1 rs

/-- Requests served from the store `s`, each with the response it got. -/
def trace (s : Store) : List Request → List (Request × ResponseWriter)
  | [] => []
  | r :: rs => (r, (serve r s).2) :: trace (serve r s).1 rs

/-- The id a request was answered with, when it is a successful `POST /tasks`: the response has
status 201 and its body is the created task. -/
def createdID (e : Request × ResponseWriter) : Option Int :=
  if e.1.Method = "POST" ∧ e.1.Path = "/tasks" ∧ e.2.status = 201 then
    match e.2.body with
    | [Chunk.task t] => some t.ID
    | _ => none
  else none

/-- Ids returned by the successful creates of a history, in the order of creation. -/
def issuedIDs (s : Store) (rs : List Request) : List Int :=
  (trace s rs).filterMap createdID

/-- Stores the server can be in: those some finite history leads to from the initial store. -/
def Reachable (s : Store) : Prop := ∃ rs : List Request, exec Store.init rs = s

/-! ## Requests of the HTTP surface -/

/-- `POST /tasks` with a body that decodes to `t`. -/
def postTask (t : Task) : Request := { Method := "POST", Path := "/tasks", Body := some t }

/-- A request to `/tasks/{seg}` with method `m`. -/
def itemRequest (m seg : String) (b : Option Task) : Request :=
  { Method := m, Path := "/tasks/" ++ seg, Body := b }

/-! ## Store invariant -/

/-- Invariant of the store: the ids in the collection are pairwise distinct and all below the
counter. -/
def Inv (s : Store) : Prop :=
  (s.tasks.map Task.ID).Nodup ∧ ∀ t ∈ s.tasks, t.ID < s.nextID

/-! ## Basic facts about the response writer and the routes -/

theorem httpError_fresh_status (msg : String) (c : Nat) :
    (httpError ResponseWriter.fresh msg c).status = c := by
  simp [httpError, ResponseWriter.Write, ResponseWriter.WriteHeader, ResponseWriter.Set,
    ResponseWriter.fresh, ResponseWriter.status]

theorem httpError_fresh_body (msg : String) (c : Nat) :
    (httpError ResponseWriter.fresh msg c).body = [Chunk.text (msg ++ "\n")] := by
  simp [httpError, ResponseWriter.Write, ResponseWriter.WriteHeader, ResponseWriter.Set,
    ResponseWriter.fresh]

theorem httpNotFound_fresh_status : (httpNotFound ResponseWriter.fresh).status = 404 :=
  httpError_fresh_status _ _

theorem httpNotFound_fresh_body :
    (httpNotFound ResponseWriter.fresh).body = [Chunk.text "404 page not found\n"] := by
  decide

theorem itemPath_ne (seg : String) : "/tasks/" ++ seg ≠ "/tasks" := by
  intro h
  have h1 := congrArg String.length h
  have h2 : "/tasks/".length = 7 := by decide
  have h3 : "/tasks".length = 6 := by decide
  simp only [String.length_append] at h1
  omega

theorem TrimPrefix_item (seg : String) : TrimPrefix ("/tasks/" ++ seg) "/tasks/" = seg := by
  simp [TrimPrefix]

theorem serve_tasks (m : String) (b : Option Task) (s : Store) :
    serve ⟨m, "/tasks", b⟩ s = handleTasks ResponseWriter.fresh ⟨m, "/tasks", b⟩ s := by
  simp [serve]

theorem serve_item (m seg : String) (b : Option Task) (s : Store) :
    serve (itemRequest m seg b) s =
      handleTaskByID ResponseWriter.fresh (itemRequest m seg b) s := by
  simp [serve, itemRequest, itemPath_ne]

theorem handleTaskByID_item (w : ResponseWriter) (m seg : String) (b : Option Task) (s : Store) :
    handleTaskByID w (itemRequest m seg b) s =
      match Atoi seg with
      | none => (s, httpError w "ID inválido" 400)
      | some id =>
        if m = "GET" then getTask w id s
        else if m = "DELETE" then deleteTask w id s
        else (s, httpError w "Método não permitido" 405) := by
  simp [handleTaskByID, itemRequest, TrimPrefix_item]

/-! ## The two loops -/

theorem getTaskLoop_absent (id : Int) (ts : List Task) (h : ∀ t ∈ ts, t.ID ≠ id) :
    getTaskLoop id ts = none := by
  induction ts with
  | nil => rfl
  | cons t rest ih =>
    have ht : t.ID ≠ id := h t (List.mem_cons_self _ _)
    simp only [getTaskLoop, if_neg ht]
    exact ih (fun u hu => h u (List.mem_cons_of_mem _ hu))

theorem getTaskLoop_first (id : Int) (l1 l2 : List Task) (t : Task) (ht : t.ID = id)
    (h : ∀ u ∈ l1, u.ID ≠ id) : getTaskLoop id (l1 ++ t :: l2) = some t := by
  induction l1 with
  | nil => simp [getTaskLoop, ht]
  | cons u rest ih =>
    have hu : u.ID ≠ id := h u (List.mem_cons_self _ _)
    simp only [List.cons_append, getTaskLoop, if_neg hu]
    exact ih (fun v hv => h v (List.mem_cons_of_mem _ hv))

theorem deleteTaskLoop_absent (id : Int) (ts rest : List Task) (i : Nat)
    (h : ∀ t ∈ rest, t.ID ≠ id) : deleteTaskLoop id ts rest i = none := by
  induction rest generalizing i with
  | nil => rfl
  | cons t rest ih =>
    have ht : t.ID ≠ id := h t (List.mem_cons_self _ _)
    simp only [deleteTaskLoop, if_neg ht]
    exact ih (i + 1) (fun u hu => h u (List.mem_cons_of_mem _ hu))

theorem deleteTaskLoop_first (id : Int) (front l1 l2 : List Task) (t : Task) (ht : t.ID = id)
    (h : ∀ u ∈ l1, u.ID ≠ id) :
    deleteTaskLoop id (front ++ l1 ++ t :: l2) (l1 ++ t :: l2) front.length =
      some (front ++ l1 ++ l2) := by
  induction l1 generalizing front with
  | nil =>
    simp only [List.append_nil, List.nil_append, deleteTaskLoop, if_pos ht]
    simp [List.take_append_eq_append_take, List.drop_append_eq_append_drop]
  | cons u rest ih =>
    have hu : u.ID ≠ id := h u (List.mem_cons_self _ _)
    simp only [List.cons_append, deleteTaskLoop, if_neg hu]
    have := ih (front ++ [u]) (fun v hv => h v (List.mem_cons_of_mem _ hv))
    simpa using this

/-- Every list holding a task with the given id splits at the first such task. -/
theorem exists_first_split (id : Int) (ts : List Task) (h : ∃ t ∈ ts, t.ID = id) :
    ∃ l1 t l2, ts = l1 ++ t :: l2 ∧ t.ID = id ∧ ∀ u ∈ l1, u.ID ≠ id := by
  induction ts with
  | nil => simp at h
  | cons a rest ih =>
    by_cases ha : a.ID = id
    · exact ⟨[], a, rest, rfl, ha, by simp⟩
    · obtain ⟨t, htm, hti⟩ := h
      have htr : t ∈ rest := by
        rcases List.mem_cons.mp htm with h1 | h1
        · exact absurd (h1 ▸ hti) ha
        · exact h1
      obtain ⟨l1, t1, l2, e, h1, h2⟩ := ih ⟨t, htr, hti⟩
      refine ⟨a :: l1, t1, l2, by simp [e], h1, ?_⟩
      intro u hu
      rcases List.mem_cons.mp hu with h3 | h3
      · exact h3 ▸ ha
      · exact h2 u h3

/-! ## What one request does to the store -/

theorem deleteTask_absent (w : ResponseWriter) (id : Int) (s : Store)
    (h : ∀ t ∈ s.tasks, t.ID ≠ id) : deleteTask w id s = (s, httpNotFound w) := by
  simp [deleteTask, deleteTaskLoop_absent id s.tasks s.tasks 0 h]

theorem getTask_absent (w : ResponseWriter) (id : Int) (s : Store)
    (h : ∀ t ∈ s.tasks, t.ID ≠ id) : getTask w id s = (s, httpNotFound w) := by
  simp [getTask, getTaskLoop_absent id s.tasks h]

theorem deleteTask_first (w : ResponseWriter) (id : Int) (s : Store) (l1 l2 : List Task)
    (t : Task) (hs : s.tasks = l1 ++ t :: l2) (ht : t.ID = id) (h : ∀ u ∈ l1, u.ID ≠ id) :
    deleteTask w id s = ({ s with tasks := l1 ++ l2 }, w.WriteHeader 204) := by
  have := deleteTaskLoop_first id [] l1 l2 t ht h
  simp only [List.nil_append, List.length_nil] at this
  simp [deleteTask, hs, this]

theorem getTask_store (w : ResponseWriter) (id : Int) (s : Store) : (getTask w id s).1 = s := by
  unfold getTask
  split <;> rfl

/-- A request leaves the store as it is, appends one task carrying the counter as id and
increments the counter, or removes one task and keeps the counter. -/
theorem serve_store (r : Request) (s : Store) :
    (serve r s).1 = s ∨
    (∃ t : Task, (r.Method = "POST" ∧ r.Path = "/tasks" ∧ r.Body = some t) ∧
      (serve r s).1 = ⟨s.tasks ++ [⟨s.nextID, t.Title, t.Done⟩], s.nextID + 1⟩) ∨
    (∃ l1 t l2, s.tasks = l1 ++ t :: l2 ∧ (serve r s).1 = ⟨l1 ++ l2, s.nextID⟩) := by
  by_cases hp : r.Path = "/tasks"
  · by_cases hg : r.Method = "GET"
    · exact Or.inl (by simp [serve, handleTasks, hp, hg, listTasks])
    · by_cases hm : r.Method = "POST"
      · cases hb : r.Body with
        | none => exact Or.inl (by simp [serve, handleTasks, hp, hg, hm, createTask, hb])
        | some t =>
          exact Or.inr (Or.inl ⟨t, ⟨hm, hp, rfl⟩,
            by simp [serve, handleTasks, hp, hg, hm, createTask, hb]⟩)
      · exact Or.inl (by simp [serve, handleTasks, hp, hg, hm])
  · by_cases hq : "/tasks/".data.isPrefixOf r.Path.data = true
    · cases ha : Atoi (TrimPrefix r.Path "/tasks/") with
      | none => exact Or.inl (by simp [serve, hp, hq, handleTaskByID, ha])
      | some id =>
        by_cases hg : r.Method = "GET"
        · exact Or.inl (by simp [serve, hp, hq, handleTaskByID, ha, hg, getTask_store])
        · by_cases hd : r.Method = "DELETE"
          · have e : (serve r s).1 = (deleteTask ResponseWriter.fresh id s).1 := by
              simp [serve, hp, hq, handleTaskByID, ha, hg, hd]
            by_cases h : ∃ t ∈ s.tasks, t.ID = id
            · obtain ⟨l1, t, l2, e1, ht, hl⟩ := exists_first_split id s.tasks h
              refine Or.inr (Or.inr ⟨l1, t, l2, e1, ?_⟩)
              rw [e, deleteTask_first _ id s l1 l2 t e1 ht hl]
            · refine Or.inl ?_
              rw [e, deleteTask_absent]
              intro t ht hid
              exact h ⟨t, ht, hid⟩
          · exact Or.inl (by simp [serve, hp, hq, handleTaskByID, ha, hg, hd])
    · exact Or.inl (by simp [serve, hp, hq])

theorem serve_nextID (r : Request) (s : Store) :
    (serve r s).1.nextID =
      if r.Method = "POST" ∧ r.Path = "/tasks" ∧ r.Body.isSome = true then s.nextID + 1
      else s.nextID := by
  rcases serve_store r s with h | ⟨t, ⟨hm, hp, hb⟩, h⟩ | ⟨l1, t, l2, _, h⟩
  · by_cases hc : r.Method = "POST" ∧ r.Path = "/tasks" ∧ r.Body.isSome = true
    · obtain ⟨hm, hp, hb⟩ := hc
      obtain ⟨t, ht⟩ := Option.isSome_iff_exists.mp hb
      have hg : ¬ ("POST" = "GET") := by decide
      simp [serve, handleTasks, createTask, hm, hp, ht, hg]
    · rw [if_neg hc, h]
  · simp [h, hm, hp, hb]
  · by_cases hc : r.Method = "POST" ∧ r.Path = "/tasks" ∧ r.Body.isSome = true
    · obtain ⟨hm, hp, hb⟩ := hc
      obtain ⟨t, ht⟩ := Option.isSome_iff_exists.mp hb
      have hg : ¬ ("POST" = "GET") := by decide
      simp [serve, handleTasks, createTask, hm, hp, ht, hg]
    · rw [if_neg hc, h]

/-- Which requests are successful creates: `POST /tasks` with a decodable body. -/
theorem createdID_serve (r : Request) (s : Store) :
    createdID (r, (serve r s).2) =
      if r.Method = "POST" ∧ r.Path = "/tasks" ∧ r.Body.isSome = true then some s.nextID
      else none := by
  by_cases hm : r.Method = "POST"
  · by_cases hp : r.Path = "/tasks"
    · have hg : ¬ ("POST" = "GET") := by decide
      cases hb : r.Body with
      | none =>
        simp [createdID, serve, handleTasks, createTask, hm, hp, hb, hg, httpError_fresh_status]
      | some t =>
        simp [createdID, serve, handleTasks, createTask, hm, hp, hb, hg, ResponseWriter.Write,
          ResponseWriter.WriteHeader, ResponseWriter.Set, ResponseWriter.fresh,
          ResponseWriter.status]
    · simp [createdID, hm, hp]
  · simp [createdID, hm]

/-! ## Invariant and histories -/

theorem inv_init : Inv Store.init := by
  simp [Inv, Store.init]

theorem inv_serve (r : Request) (s : Store) (h : Inv s) : Inv (serve r s).1 := by
  obtain ⟨hnd, hlt⟩ := h
  rcases serve_store r s with e | ⟨t, _, e⟩ | ⟨l1, t, l2, hs, e⟩
  · rw [e]
    exact ⟨hnd, hlt⟩
  · rw [e]
    constructor
    · simp only [List.map_append, List.map_cons, List.map_nil]
      rw [List.nodup_append]
      refine ⟨hnd, List.nodup_singleton _, ?_⟩
      intro k hk hk2
      obtain ⟨u, hu, rfl⟩ := List.mem_map.mp hk
      have h1 := hlt u hu
      have h2 : u.ID = s.nextID := by simpa using hk2
      omega
    · intro u hu
      rcases List.mem_append.mp hu with h1 | h1
      · have := hlt u h1
        show u.ID < s.nextID + 1
        omega
      · have h2 : u = ⟨s.nextID, t.Title, t.Done⟩ := by simpa using h1
        rw [h2]
        show s.nextID < s.nextID + 1
        omega
  · rw [e]
    constructor
    · rw [hs] at hnd
      have hsub : List.Sublist (l1 ++ l2) (l1 ++ t :: l2) :=
        List.Sublist.append_left (List.sublist_cons_self t l2) l1
      exact List.Nodup.sublist (List.Sublist.map Task.ID hsub) hnd
    · intro u hu
      apply hlt u
      rw [hs]
      rcases List.mem_append.mp hu with h1 | h1
      · exact List.mem_append_left _ h1
      · exact List.mem_append_right _ (List.mem_cons_of_mem _ h1)

theorem inv_exec (rs : List Request) (s : Store) (h : Inv s) : Inv (exec s rs) := by
  induction rs generalizing s with
  | nil => exact h
  | cons r rs ih => exact ih _ (inv_serve r s h)

theorem inv_reachable (s : Store) (h : Reachable s) : Inv s := by
  obtain ⟨rs, rfl⟩ := h
  exact inv_exec rs _ inv_init

theorem nextID_le_serve (r : Request) (s : Store) : s.nextID ≤ (serve r s).1.nextID := by
  rw [serve_nextID]
  split <;> omega

theorem nextID_le_exec (rs : List Request) (s : Store) : s.nextID ≤ (exec s rs).nextID := by
  induction rs generalizing s with
  | nil => exact le_refl _
  | cons r rs ih => exact le_trans (nextID_le_serve r s) (ih _)

/-- The counter grows by at most one per request served. -/
theorem nextID_le_length (rs : List Request) (s : Store) :
    (exec s rs).nextID ≤ s.nextID + rs.length := by
  induction rs generalizing s with
  | nil => simp [exec]
  | cons r rs ih =>
    have h1 := ih (serve r s).1
    have h2 : (serve r s).1.nextID ≤ s.nextID + 1 := by
      rw [serve_nextID]
      split <;> omega
    simp only [exec, List.length_cons, Nat.cast_add, Nat.cast_one]
    omega

theorem exec_append (rs1 rs2 : List Request) (s : Store) :
    exec s (rs1 ++ rs2) = exec (exec s rs1) rs2 := by
  induction rs1 generalizing s with
  | nil => rfl
  | cons r rs ih => exact ih _

theorem trace_append (rs1 rs2 : List Request) (s : Store) :
    trace s (rs1 ++ rs2) = trace s rs1 ++ trace (exec s rs1) rs2 := by
  induction rs1 generalizing s with
  | nil => rfl
  | cons r rs ih => simp [trace, exec, ih]

theorem issuedIDs_append (rs1 rs2 : List Request) (s : Store) :
    issuedIDs s (rs1 ++ rs2) = issuedIDs s rs1 ++ issuedIDs (exec s rs1) rs2 := by
  simp [issuedIDs, trace_append]

theorem issuedIDs_cons (r : Request) (rs : List Request) (s : Store) :
    issuedIDs s (r :: rs) =
      (if r.Method = "POST" ∧ r.Path = "/tasks" ∧ r.Body.isSome = true then [s.nextID] else [])
        ++ issuedIDs (serve r s).1 rs := by
  simp only [issuedIDs, trace, List.filterMap_cons, createdID_serve]
  split <;> simp_all

/-- Every id issued in a history lies between the counter before and the counter after. -/
theorem issuedIDs_bounds (rs : List Request) (s : Store) :
    ∀ k ∈ issuedIDs s rs, s.nextID ≤ k ∧ k < (exec s rs).nextID := by
  induction rs generalizing s with
  | nil => simp [issuedIDs, trace]
  | cons r rs ih =>
    intro k hk
    rw [issuedIDs_cons] at hk
    have hstep := nextID_le_serve r s
    have hrest := nextID_le_exec rs (serve r s).1
    rcases List.mem_append.mp hk with h1 | h1
    · by_cases hc : r.Method = "POST" ∧ r.Path = "/tasks" ∧ r.Body.isSome = true
      · rw [if_pos hc] at h1
        have hk1 : k = s.nextID := by simpa using h1
        have h2 : (serve r s).1.nextID = s.nextID + 1 := by rw [serve_nextID, if_pos hc]
        simp only [exec]
        omega
      · rw [if_neg hc] at h1
        simp at h1
    · have := ih _ k h1
      simp only [exec]
      omega

theorem issuedIDs_increasing (rs : List Request) (s : Store) :
    List.Pairwise (fun a b => a < b) (issuedIDs s rs) := by
  induction rs generalizing s with
  | nil => simp [issuedIDs, trace]
  | cons r rs ih =>
    rw [issuedIDs_cons, List.pairwise_append]
    refine ⟨?_, ih _, ?_⟩
    · split <;> simp
    · intro a ha b hb
      by_cases hc : r.Method = "POST" ∧ r.Path = "/tasks" ∧ r.Body.isSome = true
      · rw [if_pos hc] at ha
        have ha1 : a = s.nextID := by simpa using ha
        have h2 : (serve r s).1.nextID = s.nextID + 1 := by rw [serve_nextID, if_pos hc]
        have := (issuedIDs_bounds rs _ b hb).1
        omega
      · rw [if_neg hc] at ha
        simp at ha

/-! ## Creation -/

theorem serve_postTask_store (s : Store) (i : Int) (T : String) (D : Bool) :
    (serve (postTask ⟨i, T, D⟩) s).1 = ⟨s.tasks ++ [⟨s.nextID, T, D⟩], s.nextID + 1⟩ := by
  have hg : ¬ ("POST" = "GET") := by decide
  simp [serve, postTask, handleTasks, createTask, hg]

theorem serve_postTask_body (s : Store) (i : Int) (T : String) (D : Bool) :
    (serve (postTask ⟨i, T, D⟩) s).2.body = [Chunk.task ⟨s.nextID, T, D⟩] := by
  have hg : ¬ ("POST" = "GET") := by decide
  simp [serve, postTask, handleTasks, createTask, hg, ResponseWriter.Write,
    ResponseWriter.WriteHeader, ResponseWriter.Set, ResponseWriter.fresh]

/-- Creates served one after the other from a store with counter `n` are issued the ids
`n, n + 1, ...` in that order. -/
theorem issuedIDs_creates (ts : List Task) (s : Store) :
    issuedIDs s (ts.map postTask) = (List.range ts.length).map (fun (j : Nat) => s.nextID + (j : Int)) := by
  induction ts generalizing s with
  | nil => simp [issuedIDs, trace]
  | cons t ts ih =>
    have hc : (postTask t).Method = "POST" ∧ (postTask t).Path = "/tasks" ∧
        (postTask t).Body.isSome = true := by simp [postTask]
    have hn : (serve (postTask t) s).1.nextID = s.nextID + 1 := by
      rw [serve_nextID, if_pos hc]
    rw [List.map_cons, issuedIDs_cons, if_pos hc, ih, hn, List.length_cons,
      List.range_succ_eq_map]
    simp only [List.map_cons, List.map_map, List.singleton_append, Nat.cast_zero, add_zero]
    congr 1
    apply List.map_congr_left
    intro j _
    simp only [Function.comp, Nat.cast_succ]
    omega

/-- C5: on every store with collection `c` and counter `n` (below the largest `int`, so that
`nextID++` is `n + 1`), `POST /tasks` with a payload that decodes to title `T`, done flag `D` and
any id `i` answers 201 with the task `(n, T, D)` as body, the new collection is `c` with that
task appended at the end, the new counter is `n + 1`, and the id of the payload changes neither
the response nor the new store. -/
theorem createTask_assigns_counter (s : Store) (i : Int) (T : String) (D : Bool)
    (hn : s.nextID < maxInt) :
    (serve (postTask ⟨i, T, D⟩) s).1 = ⟨s.tasks ++ [⟨s.nextID, T, D⟩], s.nextID + 1⟩ ∧
    (serve (postTask ⟨i, T, D⟩) s).1.nextID ≤ maxInt ∧
    (serve (postTask ⟨i, T, D⟩) s).2.status = 201 ∧
    (serve (postTask ⟨i, T, D⟩) s).2.body = [Chunk.task ⟨s.nextID, T, D⟩] ∧
    ∀ j : Int, serve (postTask ⟨j, T, D⟩) s = serve (postTask ⟨i, T, D⟩) s := by
  have hg : ¬ ("POST" = "GET") := by decide
  refine ⟨serve_postTask_store s i T D, ?_, ?_, serve_postTask_body s i T D, ?_⟩
  · rw [serve_postTask_store]
    show s.nextID + 1 ≤ maxInt
    omega
  · simp [serve, postTask, handleTasks, createTask, hg, ResponseWriter.Write,
      ResponseWriter.WriteHeader, ResponseWriter.Set, ResponseWriter.fresh,
      ResponseWriter.status]
  · intro j
    simp [serve, postTask, handleTasks, createTask, hg]

theorem createTask_assigns_counter_witness :
    (serve (postTask ⟨7, "buy milk", false⟩) ⟨[⟨1, "a", true⟩], 2⟩).1 =
      ⟨[⟨1, "a", true⟩] ++ [⟨2, "buy milk", false⟩], 2 + 1⟩ ∧
    (serve (postTask ⟨7, "buy milk", false⟩) ⟨[⟨1, "a", true⟩], 2⟩).1.nextID ≤ maxInt ∧
    (serve (postTask ⟨7, "buy milk", false⟩) ⟨[⟨1, "a", true⟩], 2⟩).2.status = 201 ∧
    (serve (postTask ⟨7, "buy milk", false⟩) ⟨[⟨1, "a", true⟩], 2⟩).2.body =
      [Chunk.task ⟨2, "buy milk", false⟩] ∧
    ∀ j : Int, serve (postTask ⟨j, "buy milk", false⟩) ⟨[⟨1, "a", true⟩], 2⟩ =
      serve (postTask ⟨7, "buy milk", false⟩) ⟨[⟨1, "a", true⟩], 2⟩ :=
  createTask_assigns_counter ⟨[⟨1, "a", true⟩], 2⟩ 7 "buy milk" false (by decide)

/-! ## Error responses -/

/-- C8: on every store, a `POST /tasks` whose body fails to decode answers 400, and
`handleTaskByID`, given a request for `/tasks/{seg}` whose segment `seg` after the `/tasks/`
prefix does not parse as an integer, answers 400 whatever the method; in both cases the
collection and the counter are unchanged. -/
theorem malformed_input_400 (s : Store) (seg : String) (hseg : Atoi seg = none) :
    ((serve ⟨"POST", "/tasks", none⟩ s).1 = s ∧
      (serve ⟨"POST", "/tasks", none⟩ s).2.status = 400) ∧
    ∀ (m : String) (b : Option Task),
      (handleTaskByID ResponseWriter.fresh (itemRequest m seg b) s).1 = s ∧
      (handleTaskByID ResponseWriter.fresh (itemRequest m seg b) s).2.status = 400 := by
  have hg : ¬ ("POST" = "GET") := by decide
  refine ⟨⟨?_, ?_⟩, ?_⟩
  · simp [serve, handleTasks, createTask, hg]
  · simp [serve, handleTasks, createTask, hg, httpError_fresh_status]
  · intro m b
    rw [handleTaskByID_item, hseg]
    exact ⟨rfl, httpError_fresh_status _ _⟩

theorem malformed_input_400_witness :
    ((serve ⟨"POST", "/tasks", none⟩ ⟨[⟨1, "buy milk", false⟩], 2⟩).1 =
        ⟨[⟨1, "buy milk", false⟩], 2⟩ ∧
      (serve ⟨"POST", "/tasks", none⟩ ⟨[⟨1, "buy milk", false⟩], 2⟩).2.status = 400) ∧
    ∀ (m : String) (b : Option Task),
      (handleTaskByID ResponseWriter.fresh (itemRequest m "abc" b)
        ⟨[⟨1, "buy milk", false⟩], 2⟩).1 = ⟨[⟨1, "buy milk", false⟩], 2⟩ ∧
      (handleTaskByID ResponseWriter.fresh (itemRequest m "abc" b)
        ⟨[⟨1, "buy milk", false⟩], 2⟩).2.status = 400 :=
  malformed_input_400 ⟨[⟨1, "buy milk", false⟩], 2⟩ "abc" (by decide)

/-- C9: on every store, a request to `/tasks` with a method other than GET or POST, and a
request to `/tasks/{seg}` with an integer segment and a method other than GET or DELETE, answers
405 and leaves the collection and the counter unchanged. -/
theorem unsupported_method_405 (s : Store) (m : String) (b : Option Task) (hget : m ≠ "GET") :
    (m ≠ "POST" →
      (serve ⟨m, "/tasks", b⟩ s).1 = s ∧ (serve ⟨m, "/tasks", b⟩ s).2.status = 405) ∧
    (m ≠ "DELETE" → ∀ (seg : String) (id : Int), Atoi seg = some id →
      (serve (itemRequest m seg b) s).1 = s ∧
        (serve (itemRequest m seg b) s).2.status = 405) := by
  constructor
  · intro hpost
    rw [serve_tasks]
    simp [handleTasks, hget, hpost, httpError_fresh_status]
  · intro hdel seg id hseg
    rw [serve_item, handleTaskByID_item, hseg]
    simp [hget, hdel, httpError_fresh_status]

theorem unsupported_method_405_witness :
    ((serve ⟨"PUT", "/tasks", none⟩ Store.init).1 = Store.init ∧
      (serve ⟨"PUT", "/tasks", none⟩ Store.init).2.status = 405) ∧
    ((serve (itemRequest "PUT" "1" none) Store.init).1 = Store.init ∧
      (serve (itemRequest "PUT" "1" none) Store.init).2.status = 405) :=
  ⟨(unsupported_method_405 Store.init "PUT" none (by decide)).1 (by decide),
   (unsupported_method_405 Store.init "PUT" none (by decide)).2 (by decide) "1" 1 (by decide)⟩

/-- C7: on every store and for every id that no task of the collection has, `GET /tasks/{id}`
and `DELETE /tasks/{id}` both answer 404 and leave the collection and the counter unchanged, so
any number of repetitions of either request, in any order, keeps answering 404 on the same
store. -/
theorem absent_id_404 (s : Store) (id : Int) (seg : String) (hseg : Atoi seg = some id)
    (h : ∀ t ∈ s.tasks, t.ID ≠ id) :
    (∀ b, (serve (itemRequest "GET" seg b) s).1 = s ∧
      (serve (itemRequest "GET" seg b) s).2.status = 404) ∧
    (∀ b, (serve (itemRequest "DELETE" seg b) s).1 = s ∧
      (serve (itemRequest "DELETE" seg b) s).2.status = 404) ∧
    ∀ rs : List Request,
      (∀ r ∈ rs, ∃ b, r = itemRequest "GET" seg b ∨ r = itemRequest "DELETE" seg b) →
      exec s rs = s ∧ (trace s rs).map (fun e => e.2.status) = List.replicate rs.length 404 := by
  have hd : ¬ ("DELETE" = "GET") := by decide
  have hG : ∀ b, serve (itemRequest "GET" seg b) s = (s, httpNotFound ResponseWriter.fresh) := by
    intro b
    rw [serve_item, handleTaskByID_item, hseg]
    simp [getTask_absent _ id s h]
  have hD : ∀ b,
      serve (itemRequest "DELETE" seg b) s = (s, httpNotFound ResponseWriter.fresh) := by
    intro b
    rw [serve_item, handleTaskByID_item, hseg]
    simp [hd, deleteTask_absent _ id s h]
  refine ⟨fun b => ?_, fun b => ?_, ?_⟩
  · rw [hG]
    exact ⟨rfl, httpNotFound_fresh_status⟩
  · rw [hD]
    exact ⟨rfl, httpNotFound_fresh_status⟩
  · intro rs
    induction rs with
    | nil => intro _; exact ⟨rfl, rfl⟩
    | cons r rs ih =>
      intro hall
      have hr : serve r s = (s, httpNotFound ResponseWriter.fresh) := by
        obtain ⟨b, e | e⟩ := hall r (List.mem_cons_self _ _)
        · rw [e]; exact hG b
        · rw [e]; exact hD b
      have hrest := ih (fun r1 hr1 => hall r1 (List.mem_cons_of_mem _ hr1))
      constructor
      · simp only [exec, hr]
        exact hrest.1
      · simp only [trace, hr, List.map_cons, List.length_cons, List.replicate_succ]
        rw [hrest.2, httpNotFound_fresh_status]

theorem absent_id_404_witness :
    (∀ b, (serve (itemRequest "GET" "2" b) ⟨[⟨1, "a", false⟩, ⟨3, "c", true⟩], 4⟩).1 =
        ⟨[⟨1, "a", false⟩, ⟨3, "c", true⟩], 4⟩ ∧
      (serve (itemRequest "GET" "2" b) ⟨[⟨1, "a", false⟩, ⟨3, "c", true⟩], 4⟩).2.status = 404) ∧
    (∀ b, (serve (itemRequest "DELETE" "2" b) ⟨[⟨1, "a", false⟩, ⟨3, "c", true⟩], 4⟩).1 =
        ⟨[⟨1, "a", false⟩, ⟨3, "c", true⟩], 4⟩ ∧
      (serve (itemRequest "DELETE" "2" b) ⟨[⟨1, "a", false⟩, ⟨3, "c", true⟩], 4⟩).2.status
        = 404) ∧
    ∀ rs : List Request,
      (∀ r ∈ rs, ∃ b, r = itemRequest "GET" "2" b ∨ r = itemRequest "DELETE" "2" b) →
      exec ⟨[⟨1, "a", false⟩, ⟨3, "c", true⟩], 4⟩ rs = ⟨[⟨1, "a", false⟩, ⟨3, "c", true⟩], 4⟩ ∧
        (trace ⟨[⟨1, "a", false⟩, ⟨3, "c", true⟩], 4⟩ rs).map (fun e => e.2.status) =
          List.replicate rs.length 404 :=
  absent_id_404 ⟨[⟨1, "a", false⟩, ⟨3, "c", true⟩], 4⟩ 2 "2" (by decide) (by decide)

/-- C10 as stated fails: on the initial store, where no task has id 1, `GET /tasks/1` and
`DELETE /tasks/1` answer 404 with a body that is not empty. -/
theorem notFound_body_not_empty :
    (serve (itemRequest "GET" "1" none) Store.init).2.status = 404 ∧
    (serve (itemRequest "GET" "1" none) Store.init).2.body ≠ [] ∧
    (serve (itemRequest "DELETE" "1" none) Store.init).2.status = 404 ∧
    (serve (itemRequest "DELETE" "1" none) Store.init).2.body ≠ [] := by
  decide

/-- C10, amended: on every store and for every id that no task of the collection has, the 404
responses to `GET /tasks/{id}` and to `DELETE /tasks/{id}` carry the one-line body that
`http.NotFound` writes, `404 page not found` followed by a newline. -/
theorem notFound_body_default_text (s : Store) (id : Int) (seg : String) (b : Option Task)
    (hseg : Atoi seg = some id) (h : ∀ t ∈ s.tasks, t.ID ≠ id) :
    ((serve (itemRequest "GET" seg b) s).2.status = 404 ∧
      (serve (itemRequest "GET" seg b) s).2.body = [Chunk.text "404 page not found\n"]) ∧
    ((serve (itemRequest "DELETE" seg b) s).2.status = 404 ∧
      (serve (itemRequest "DELETE" seg b) s).2.body = [Chunk.text "404 page not found\n"]) := by
  have hd : ¬ ("DELETE" = "GET") := by decide
  constructor
  · rw [serve_item, handleTaskByID_item, hseg]
    simp only [if_true, getTask_absent _ id s h]
    exact ⟨httpNotFound_fresh_status, httpNotFound_fresh_body⟩
  · rw [serve_item, handleTaskByID_item, hseg]
    simp only [if_neg hd, if_true, deleteTask_absent _ id s h]
    exact ⟨httpNotFound_fresh_status, httpNotFound_fresh_body⟩

theorem notFound_body_default_text_witness :
    ((serve (itemRequest "GET" "2" none) ⟨[⟨1, "buy milk", false⟩], 2⟩).2.status = 404 ∧
      (serve (itemRequest "GET" "2" none) ⟨[⟨1, "buy milk", false⟩], 2⟩).2.body =
        [Chunk.text "404 page not found\n"]) ∧
    ((serve (itemRequest "DELETE" "2" none) ⟨[⟨1, "buy milk", false⟩], 2⟩).2.status = 404 ∧
      (serve (itemRequest "DELETE" "2" none) ⟨[⟨1, "buy milk", false⟩], 2⟩).2.body =
        [Chunk.text "404 page not found\n"]) :=
  notFound_body_default_text ⟨[⟨1, "buy milk", false⟩], 2⟩ 2 "2" none (by decide) (by decide)

/-! ## Reachable stores -/

/-- C4: in every store reachable from the initial store by a finite history of requests, the
ids of the tasks in the collection are pairwise distinct, and the counter is strictly greater
than every id in the collection and than every id issued in that history. -/
theorem reachable_ids_distinct_below_counter (rs : List Request) :
    ((exec Store.init rs).tasks.map Task.ID).Nodup ∧
    (∀ t ∈ (exec Store.init rs).tasks, t.ID < (exec Store.init rs).nextID) ∧
    ∀ k ∈ issuedIDs Store.init rs, k < (exec Store.init rs).nextID := by
  have hinv := inv_exec rs Store.init inv_init
  exact ⟨hinv.1, hinv.2, fun k hk => (issuedIDs_bounds rs Store.init k hk).2⟩

/-- C1: for every finite history of requests served from the initial store, the ids returned
by its successful `POST /tasks` requests are strictly increasing in the order of creation, hence
pairwise distinct, and none of them is issued again by any continuation of the history, whatever
was deleted in between. -/
theorem issued_ids_strictly_increasing (rs rs2 : List Request) :
    List.Pairwise (fun a b => a < b) (issuedIDs Store.init rs) ∧
    (issuedIDs Store.init rs).Nodup ∧
    ∀ k ∈ issuedIDs Store.init rs, k ∉ issuedIDs (exec Store.init rs) rs2 := by
  have hinc := issuedIDs_increasing rs Store.init
  refine ⟨hinc, ?_, ?_⟩
  · exact List.Pairwise.imp (fun hab => ne_of_lt hab) hinc
  · intro k hk hk2
    have h1 := (issuedIDs_bounds rs Store.init k hk).2
    have h2 := (issuedIDs_bounds rs2 (exec Store.init rs) k hk2).1
    omega

/-- C2: on every reachable store, if `POST /tasks` with a payload that decodes to title `T` and
done flag `D` returns the created task with id `k`, then `GET /tasks/k` on the resulting store
answers 200 with the task `(k, T, D)` and leaves the store as it is. -/
theorem create_then_get (s : Store) (hs : Reachable s) (i : Int) (T : String) (D : Bool)
    (k : Int) (seg : String) (b : Option Task)
    (hk : (serve (postTask ⟨i, T, D⟩) s).2.body = [Chunk.task ⟨k, T, D⟩])
    (hseg : Atoi seg = some k) :
    (serve (itemRequest "GET" seg b) (serve (postTask ⟨i, T, D⟩) s).1).1 =
      (serve (postTask ⟨i, T, D⟩) s).1 ∧
    (serve (itemRequest "GET" seg b) (serve (postTask ⟨i, T, D⟩) s).1).2.status = 200 ∧
    (serve (itemRequest "GET" seg b) (serve (postTask ⟨i, T, D⟩) s).1).2.body =
      [Chunk.task ⟨k, T, D⟩] := by
  have hstore := serve_postTask_store s i T D
  rw [serve_postTask_body] at hk
  have hkn : s.nextID = k := by
    have := List.head_eq_of_cons_eq hk
    injection this with h1
    injection h1
  have hinv := inv_reachable s hs
  have habs : ∀ u ∈ s.tasks, u.ID ≠ k := by
    intro u hu
    have := hinv.2 u hu
    omega
  have hfind : getTaskLoop k (s.tasks ++ [⟨k, T, D⟩]) = some ⟨k, T, D⟩ :=
    getTaskLoop_first k s.tasks [] ⟨k, T, D⟩ rfl habs
  rw [hstore, serve_item, handleTaskByID_item, hseg, hkn]
  simp only [if_true, getTask, hfind]
  refine ⟨trivial, ?_, ?_⟩
  · simp [ResponseWriter.Write, ResponseWriter.WriteHeader, ResponseWriter.Set,
      ResponseWriter.fresh, ResponseWriter.status]
  · simp [ResponseWriter.Write, ResponseWriter.WriteHeader, ResponseWriter.Set,
      ResponseWriter.fresh]

theorem create_then_get_witness :
    (serve (itemRequest "GET" "3" none)
      (serve (postTask ⟨7, "buy milk", false⟩) ⟨[⟨1, "a", false⟩, ⟨2, "b", true⟩], 3⟩).1).1 =
      (serve (postTask ⟨7, "buy milk", false⟩) ⟨[⟨1, "a", false⟩, ⟨2, "b", true⟩], 3⟩).1 ∧
    (serve (itemRequest "GET" "3" none)
      (serve (postTask ⟨7, "buy milk", false⟩)
        ⟨[⟨1, "a", false⟩, ⟨2, "b", true⟩], 3⟩).1).2.status = 200 ∧
    (serve (itemRequest "GET" "3" none)
      (serve (postTask ⟨7, "buy milk", false⟩)
        ⟨[⟨1, "a", false⟩, ⟨2, "b", true⟩], 3⟩).1).2.body =
      [Chunk.task ⟨3, "buy milk", false⟩] :=
  create_then_get ⟨[⟨1, "a", false⟩, ⟨2, "b", true⟩], 3⟩
    ⟨[postTask ⟨0, "a", false⟩, postTask ⟨0, "b", true⟩], by decide⟩ 7 "buy milk" false 3 "3"
    none (by decide) (by decide)

/-- C3: on every reachable store and for every id that a task of the collection has,
`DELETE /tasks/{id}` answers 204 with no body; the new collection is the old one without the
one task of that id (the old collection splits around that task, the parts before and after it
are kept in order, no task of that id remains, the length decreases by 1), the counter is
unchanged, and a `GET /tasks/{id}` on the new store answers 404. -/
theorem delete_removes_exactly_one (s : Store) (hs : Reachable s) (id : Int) (seg : String)
    (b : Option Task) (hseg : Atoi seg = some id) (hmem : ∃ t ∈ s.tasks, t.ID = id) :
    (serve (itemRequest "DELETE" seg b) s).2.status = 204 ∧
    (serve (itemRequest "DELETE" seg b) s).2.body = [] ∧
    (∃ l1 t l2, s.tasks = l1 ++ t :: l2 ∧ t.ID = id ∧
      (serve (itemRequest "DELETE" seg b) s).1.tasks = l1 ++ l2 ∧
      ∀ u ∈ l1 ++ l2, u.ID ≠ id) ∧
    (serve (itemRequest "DELETE" seg b) s).1.tasks.length + 1 = s.tasks.length ∧
    (serve (itemRequest "DELETE" seg b) s).1.nextID = s.nextID ∧
    ∀ b2, (serve (itemRequest "GET" seg b2) (serve (itemRequest "DELETE" seg b) s).1).2.status
      = 404 := by
  have hd : ¬ ("DELETE" = "GET") := by decide
  obtain ⟨l1, t, l2, e, ht, hl⟩ := exists_first_split id s.tasks hmem
  have hserve : serve (itemRequest "DELETE" seg b) s =
      ({ s with tasks := l1 ++ l2 }, ResponseWriter.fresh.WriteHeader 204) := by
    rw [serve_item, handleTaskByID_item, hseg]
    simp only [if_neg hd, if_true]
    exact deleteTask_first _ id s l1 l2 t e ht hl
  have hnd := (inv_reachable s hs).1
  have hgone : ∀ u ∈ l1 ++ l2, u.ID ≠ id := by
    intro u hu
    rcases List.mem_append.mp hu with h1 | h1
    · exact hl u h1
    · intro hu2
      rw [e] at hnd
      simp only [List.map_append, List.map_cons] at hnd
      have h3 := (List.nodup_cons.mp (List.nodup_append.mp hnd).2.1).1
      apply h3
      rw [ht, ← hu2]
      exact List.mem_map_of_mem _ h1
  rw [hserve]
  refine ⟨?_, ?_, ⟨l1, t, l2, e, ht, rfl, hgone⟩, ?_, rfl, ?_⟩
  · simp [ResponseWriter.WriteHeader, ResponseWriter.fresh, ResponseWriter.status]
  · simp [ResponseWriter.WriteHeader, ResponseWriter.fresh]
  · simp only [e, List.length_append, List.length_cons]
    omega
  · intro b2
    rw [serve_item, handleTaskByID_item, hseg]
    simp only [if_true]
    rw [getTask_absent _ id _ hgone]
    exact httpNotFound_fresh_status

theorem delete_removes_exactly_one_witness :
    (serve (itemRequest "DELETE" "1" none) ⟨[⟨1, "a", false⟩, ⟨2, "b", true⟩], 3⟩).2.status = 204 ∧
    (serve (itemRequest "DELETE" "1" none) ⟨[⟨1, "a", false⟩, ⟨2, "b", true⟩], 3⟩).2.body = [] ∧
    (∃ l1 t l2, (⟨[⟨1, "a", false⟩, ⟨2, "b", true⟩], 3⟩ : Store).tasks = l1 ++ t :: l2 ∧
      t.ID = 1 ∧
      (serve (itemRequest "DELETE" "1" none) ⟨[⟨1, "a", false⟩, ⟨2, "b", true⟩], 3⟩).1.tasks =
        l1 ++ l2 ∧
      ∀ u ∈ l1 ++ l2, u.ID ≠ 1) ∧
    (serve (itemRequest "DELETE" "1" none) ⟨[⟨1, "a", false⟩, ⟨2, "b", true⟩], 3⟩).1.tasks.length
      + 1 = (⟨[⟨1, "a", false⟩, ⟨2, "b", true⟩], 3⟩ : Store).tasks.length ∧
    (serve (itemRequest "DELETE" "1" none) ⟨[⟨1, "a", false⟩, ⟨2, "b", true⟩], 3⟩).1.nextID =
      (⟨[⟨1, "a", false⟩, ⟨2, "b", true⟩], 3⟩ : Store).nextID ∧
    ∀ b2, (serve (itemRequest "GET" "1" b2)
      (serve (itemRequest "DELETE" "1" none) ⟨[⟨1, "a", false⟩, ⟨2, "b", true⟩], 3⟩).1).2.status
      = 404 :=
  delete_removes_exactly_one ⟨[⟨1, "a", false⟩, ⟨2, "b", true⟩], 3⟩
    ⟨[postTask ⟨0, "a", false⟩, postTask ⟨0, "b", true⟩], by decide⟩ 1 "1" none (by decide)
    ⟨⟨1, "a", false⟩, by decide, rfl⟩

/-! ## Evaluation on the scenarios of the service -/

/-- Create, create, delete the first task, create again: the ids issued are 1, 2, 3 and the
collection keeps the tasks 2 and 3 in order. -/
theorem scenario_ids :
    issuedIDs Store.init
      [postTask ⟨0, "a", false⟩, postTask ⟨0, "b", true⟩, itemRequest "DELETE" "1" none,
        postTask ⟨9, "c", false⟩] = [1, 2, 3] ∧
    exec Store.init
      [postTask ⟨0, "a", false⟩, postTask ⟨0, "b", true⟩, itemRequest "DELETE" "1" none,
        postTask ⟨9, "c", false⟩] = ⟨[⟨2, "b", true⟩, ⟨3, "c", false⟩], 4⟩ := by
  decide

/-- The listing of `GET /tasks` after one create. -/
theorem scenario_list :
    (serve ⟨"GET", "/tasks", none⟩ ⟨[⟨1, "buy milk", false⟩], 2⟩).2.status = 200 ∧
    (serve ⟨"GET", "/tasks", none⟩ ⟨[⟨1, "buy milk", false⟩], 2⟩).2.body =
      [Chunk.tasks [⟨1, "buy milk", false⟩]] := by
  decide

/-- Values of `Atoi` at the edges of its domain. -/
theorem Atoi_values :
    Atoi "-12" = some (-12) ∧ Atoi "+7" = some 7 ∧ Atoi "" = none ∧ Atoi "+" = none ∧
    Atoi "abc" = none ∧ Atoi "1 " = none ∧
    Atoi "9223372036854775807" = some 9223372036854775807 ∧
    Atoi "9223372036854775808" = none ∧
    Atoi "-9223372036854775808" = some (-9223372036854775808) ∧
    Atoi "-9223372036854775809" = none := by
  decide

end ApiGolang
